import Mathlib

/-!
Verification of the MarketPulse bot (src/app.py): a news/IPO publishing
pipeline with a per-day fingerprint store, a relevance classifier, a
publication gate bounded by a daily quota, and HTML-escaping of outbound
text.  Python strings are modelled as `List Char`; machine-level concerns
(HTTP, HTML parsing, the scheduler clock) appear as explicit parameters
(an entry's extracted summary text, a delivery-outcome oracle, a calendar
day token compared only for equality).
-/

set_option maxRecDepth 8192

/-- Python strings, modelled as lists of characters. -/
abbrev Str := List Char

/-- `str.lower()` (ASCII case folding; every character that the lexicons
and fingerprints inspect is ASCII). -/
def lower (s : Str) : Str := s.map Char.toLower

/-- Python's `needle in hay` substring test. -/
def isSubStr (n : Str) : Str → Bool
  | [] => n.isEmpty
  | c :: t => n.isPrefixOf (c :: t) || isSubStr n t

/-- `any(k in hay for k in keys)`. -/
def anyKeyIn (hay : Str) (keys : List Str) : Bool :=
  keys.any fun k => isSubStr k hay

/-- `MUST_INCLUDE` from app.py lines 35-39: local-market lexicon. -/
def MUST_INCLUDE : List Str :=
  ["india","nifty","sensex","nse","bse","sebi","rbi","ipo","gmp","fii","dii",
   "rupee","₹","crore","gst","psu","bank nifty","nbfc","psb",
   "reliance","tcs","infosys","hdfc","icici","sbi","itc","ongc"].map String.toList

/-- `BLOCK_FOREIGN` from app.py lines 40-44: foreign-market lexicon. -/
def BLOCK_FOREIGN : List Str :=
  ["wall street","dow","nasdaq","s&p","euro zone","europe","uk ",
   "u.k.","us ","u.s.","australia","japan","china","hong kong",
   "korea","australian","european","german","france","italy","spain"].map String.toList

/-- `GLOBAL_WITH_IMPACT` from app.py lines 45-50: global-macro-impact lexicon. -/
def GLOBAL_WITH_IMPACT : List Str :=
  ["tariff","import duty","export duty","sanction","opec","crude oil",
   "brent","wti","fed","federal reserve","rate hike","rate cut",
   "inflation","cpi","ppi","gdp","bond yields","dollar index","usd","yuan","renminbi"].map String.toList

/-- The character class `[a-z0-9]` of the regex in `norm_fp`. -/
def keepAlnum (c : Char) : Bool :=
  (decide ('a' ≤ c) && decide (c ≤ 'z')) || (decide ('0' ≤ c) && decide (c ≤ '9'))

/-- `norm_fp` (app.py line 85-86): lower-case the text and delete every
character outside `[a-z0-9]`. -/
def norm_fp (text : Str) : Str := (lower text).filter keepAlnum

/-- `is_india_headline` (app.py lines 263-273).  `strict` is the
`NEWS_STRICT_INDIA` configuration toggle. -/
def is_india_headline (strict : Bool) (title summary : Str) : Bool :=
  let t := lower title
  let s := lower summary
  if anyKeyIn (t ++ s) GLOBAL_WITH_IMPACT then true
  else if strict && !(anyKeyIn t MUST_INCLUDE) then false
  else if anyKeyIn t BLOCK_FOREIGN then false
  else true

/-- `india_impact_hint` (app.py lines 127-138): selects canned hint lines by
substring tests over `title.lower() + " " + body.lower()` and joins them
with spaces. -/
def india_impact_hint (title body : Str) : Str :=
  let t := lower title ++ [' '] ++ lower body
  let hints :=
    (if anyKeyIn t (["crude","brent","wti","opec","oil"].map String.toList)
     then ["May sway India’s inflation and OMC margins; watch paint, aviation & chemicals.".toList] else [])
    ++ (if isSubStr "fed".toList t || isSubStr "rate".toList t || isSubStr "yields".toList t
        then ["Rates/dollar moves can hit FPIs & IT/Financials; rupee sensitivity high.".toList] else [])
    ++ (if isSubStr "tariff".toList t || isSubStr "duty".toList t || isSubStr "sanction".toList t
        then ["Could shift global trade flows; look at domestic import/export exposed sectors.".toList] else [])
    ++ (if isSubStr "dollar index".toList t || isSubStr "usd".toList t
        then ["USD strength/weakness can impact rupee, IT revenues and FPI flows.".toList] else [])
  List.intercalate [' '] hints

/-- The Python whitespace class stripped by `str.strip()` (the characters
relevant to feed text; all are ASCII). -/
def isPySpace (c : Char) : Bool :=
  (c == ' ') || (c == '\t') || (c == '\n') || (c == '\r') || (c == '\x0b') || (c == '\x0c')

/-- `s.strip()` on the left end. -/
def lstrip (s : Str) : Str := s.dropWhile isPySpace

/-- `s.strip()` on the right end. -/
def rstrip (s : Str) : Str := (s.reverse.dropWhile isPySpace).reverse

/-- `s.strip()`. -/
def pyStrip (s : Str) : Str := rstrip (lstrip s)

/-- `s.replace(pat, rep)` where `pat` is the single character `c`: every
occurrence of `c` is replaced by `rep`, left to right (single-character
patterns cannot overlap, so Python's replace is exactly this map). -/
def repl (f : Char → Str) : Str → Str
  | [] => []
  | c :: t => f c ++ repl f t

/-- The replacement `"&" → "&amp;"` (first `replace` in `esc`). -/
def escAmp (c : Char) : Str := if c = '&' then "&amp;".toList else [c]

/-- The replacement `"<" → "&lt;"` (second `replace` in `esc`). -/
def escLt (c : Char) : Str := if c = '<' then "&lt;".toList else [c]

/-- The replacement `">" → "&gt;"` (third `replace` in `esc`). -/
def escGt (c : Char) : Str := if c = '>' then "&gt;".toList else [c]

/-- `esc` (app.py lines 83-84): `(s or "").replace("&","&amp;")
.replace("<","&lt;").replace(">","&gt;").strip()`; `none` models a `None`
argument, which `s or ""` turns into the empty string. -/
def esc (s : Option Str) : Str :=
  pyStrip (repl escGt (repl escLt (repl escAmp (s.getD []))))

/-- `re.sub(r"^https?://(www\.)?", "", link)` (app.py line 303): the regex is
anchored, case-sensitive and greedy, so it removes exactly one of these four
literal prefixes when present. -/
def stripSchemeWWW (l : Str) : Str :=
  if "https://www.".toList.isPrefixOf l then l.drop 12
  else if "https://".toList.isPrefixOf l then l.drop 8
  else if "http://www.".toList.isPrefixOf l then l.drop 11
  else if "http://".toList.isPrefixOf l then l.drop 7
  else l

/-- `re.sub(...).split("/")[0]` (app.py line 303): the source label shown in
the message. -/
def srcOf (link : Str) : Str := (stripSchemeWWW link).takeWhile (· ≠ '/')

/-- The message parts built in `fetch_and_post_news` (app.py lines 302-310):
header with escaped title, optional escaped summary, optional escaped impact
hint, then either an anchor with escaped link and source or a plain escaped
source line. -/
def newsParts (includeLinks : Bool) (title summary impact link : Str) : List Str :=
  let src := srcOf link
  ["🚨 <b>".toList ++ esc (some title) ++ "</b>".toList]
  ++ (if summary ≠ [] then [esc (some summary)] else [])
  ++ (if impact ≠ [] then ["➡️ ".toList ++ esc (some impact)] else [])
  ++ (if includeLinks && !link.isEmpty then
        ["<a href=\"".toList ++ esc (some link) ++ "\">Read</a> · <i>".toList
          ++ esc (some src) ++ "</i>".toList]
      else ["<i>Source:</i> ".toList ++ esc (some src)])

/-- The same template with the interpolated payloads taken as explicit
arguments (`et`..`esrc`), the raw fields kept only for the emptiness guards;
`newsParts` factors through it at the escaped fields, which states that every
interpolated external field passes through `esc`. -/
def newsPartsTpl (includeLinks : Bool) (summary impact link : Str)
    (et es ei el esrc : Str) : List Str :=
  ["🚨 <b>".toList ++ et ++ "</b>".toList]
  ++ (if summary ≠ [] then [es] else [])
  ++ (if impact ≠ [] then ["➡️ ".toList ++ ei] else [])
  ++ (if includeLinks && !link.isEmpty then
        ["<a href=\"".toList ++ el ++ "\">Read</a> · <i>".toList ++ esrc ++ "</i>".toList]
      else ["<i>Source:</i> ".toList ++ esrc])

/-- `"\n".join(parts)` (app.py line 312). -/
def newsMsg (includeLinks : Bool) (title summary impact link : Str) : Str :=
  List.intercalate ['\n'] (newsParts includeLinks title summary impact link)

/-- Persistent per-day publication record (app.py line 64 `DEFAULT_STATE` and
the `state.json` shape).  Calendar days are abstract tokens (`Nat`) compared
only for equality, exactly as `date.today().isoformat()` strings are. -/
structure BotState where
  date : Option Nat
  posted_ids : List Str
  posted_fps : List Str
  news_count_today : Nat
deriving Repr, DecidableEq

/-- `DEFAULT_STATE` (app.py line 64). -/
def DEFAULT_STATE : BotState :=
  { date := none, posted_ids := [], posted_fps := [], news_count_today := 0 }

/-- `load_state` (app.py lines 65-74).  `stored` is the parse of
`state.json`: `none` when the file is missing or unreadable (the
`except` branch), `some data` otherwise.  When the stored day differs from
`today` the record is replaced wholesale and stamped with the new date. -/
def load_state (stored : Option BotState) (today : Nat) : BotState :=
  let data := stored.getD DEFAULT_STATE
  if data.date ≠ some today then { DEFAULT_STATE with date := some today } else data

/-- `job_reset` (app.py lines 344-346). -/
def job_reset (today : Nat) : BotState :=
  { DEFAULT_STATE with date := some today }

/-- `l[-n:]`: the at most `n` most recent entries of `l`. -/
def lastN (n : Nat) (l : List α) : List α := l.drop (l.length - n)

/-- The commit block of a successful delivery (app.py lines 314-318): append
both identities, cap both lists to the 600 most recent entries, increment the
daily counter. -/
def recordPublish (st : BotState) (uid fp : Str) : BotState :=
  { st with
    posted_ids := lastN 600 (st.posted_ids ++ [uid]),
    posted_fps := lastN 600 (st.posted_fps ++ [fp]),
    news_count_today := st.news_count_today + 1 }

/-- A normalized feed entry.  `summary` is the output of `short_from_entry`
(app.py lines 275-278), carried as data because that function runs an
external HTML parser over the raw feed payload; the pipeline only ever
consumes its extracted text.  Empty strings model missing/falsy fields,
matching how every access (`entry.get(...) or ...`, `if not uid`) only tests
truthiness. -/
structure Entry where
  id : Str
  link : Str
  title : Str
  summary : Str
deriving Repr, DecidableEq

/-- `entry.get("id") or entry.get("link") or entry.get("title")`
(app.py line 289). -/
def entryUid (e : Entry) : Str :=
  if e.id ≠ [] then e.id else if e.link ≠ [] then e.link else e.title

/-- Startup configuration read from the environment (app.py lines 17-21):
`NEWS_STRICT_INDIA`, `NEWS_INCLUDE_LINKS` and `NEWS_DAILY_LIMIT`. -/
structure Config where
  strict : Bool
  includeLinks : Bool
  limit : Nat

/-- In-cycle context: the mutable `STATE`, the number of delivery attempts
made so far this cycle (the index fed to the delivery oracle), and the ghost
trace of `(uid, fingerprint)` pairs actually published this cycle. -/
structure CycleCtx where
  st : BotState
  attempts : Nat
  published : List (Str × Str)
deriving Repr, DecidableEq

/-- The message assembled for one entry (app.py lines 302-312). -/
def entryMsg (cfg : Config) (e : Entry) : Str :=
  newsMsg cfg.includeLinks e.title e.summary (india_impact_hint e.title e.summary) e.link

/-- The per-entry body of the news loop (app.py lines 288-322).  `send`
models `tg_send`: its outcome depends on the network, so it is an oracle over
the attempt index and the message text; `true` is a confirmed 200 response.
The returned flag is the `return` executed when the incremented counter
reaches the quota. -/
def processEntry (cfg : Config) (send : Nat → Str → Bool) (c : CycleCtx) (e : Entry) :
    CycleCtx × Bool :=
  let uid := entryUid e
  if uid = [] ∨ e.title = [] then (c, false)
  else
    let fp := norm_fp e.title
    if uid ∈ c.st.posted_ids ∨ fp ∈ c.st.posted_fps then (c, false)
    else if is_india_headline cfg.strict e.title e.summary = false then (c, false)
    else
      let msg := entryMsg cfg e
      if send c.attempts msg then
        let st' := recordPublish c.st uid fp
        (⟨st', c.attempts + 1, c.published ++ [(uid, fp)]⟩,
         decide (cfg.limit ≤ st'.news_count_today))
      else (⟨c.st, c.attempts + 1, c.published⟩, false)

/-- The entry loop over one parsed feed; the flag short-circuits the whole
cycle when the quota is reached. -/
def runEntries (cfg : Config) (send : Nat → Str → Bool) :
    List Entry → CycleCtx → CycleCtx × Bool
  | [], c => (c, false)
  | e :: rest, c =>
    let r := processEntry cfg send c e
    if r.2 then r else runEntries cfg send rest r.1

/-- One source in the feed loop (app.py lines 285-324): `none` models a fetch
or parse failure of that source (the `except` branch), which yields nothing;
a healthy source yields its entries, of which the first 12 are scanned. -/
def runFeed (cfg : Config) (send : Nat → Str → Bool)
    (feed : Option (List Entry)) (c : CycleCtx) : CycleCtx × Bool :=
  match feed with
  | none => (c, false)
  | some entries => runEntries cfg send (entries.take 12) c

/-- The feed loop; a `true` flag is the `return` out of the function. -/
def runFeeds (cfg : Config) (send : Nat → Str → Bool) :
    List (Option (List Entry)) → CycleCtx → CycleCtx
  | [], c => c
  | f :: rest, c =>
    let r := runFeed cfg send f c
    if r.2 then r.1 else runFeeds cfg send rest r.1

/-- `fetch_and_post_news` (app.py lines 280-324): reload (and, on a day
change, reset) the state, return immediately when the quota is already
exhausted, otherwise run the feed loop.  Returns the final state (in memory
and, because every commit saves synchronously, on disk) together with the
trace of published identities. -/
def fetch_and_post_news (cfg : Config) (send : Nat → Str → Bool) (today : Nat)
    (feeds : List (Option (List Entry))) (stored : Option BotState) :
    BotState × List (Str × Str) :=
  let st := load_state stored today
  if cfg.limit ≤ st.news_count_today then (st, [])
  else
    let c := runFeeds cfg send feeds ⟨st, 0, []⟩
    (c.st, c.published)

/-- One scheduled news cycle: its delivery oracle and the per-source fetch
results. -/
structure CycleInput where
  send : Nat → Str → Bool
  feeds : List (Option (List Entry))

/-- A sequence of news cycles run within one calendar day, each reloading the
state the previous one persisted. -/
def runCycles (cfg : Config) (today : Nat) :
    List CycleInput → Option BotState → Option BotState × List (Str × Str)
  | [], stored => (stored, [])
  | cy :: rest, stored =>
    let r := fetch_and_post_news cfg cy.send today cy.feeds stored
    let r' := runCycles cfg today rest (some r.1)
    (r'.1, r.2 ++ r'.2)

/-- Python `dict` assignment `m[k] = v`: overwrite in place when the key
exists (insertion order is kept), append otherwise. -/
def dictInsert (m : List (Str × α)) (k : Str) (v : α) : List (Str × α) :=
  if m.any (·.1 = k) then m.map (fun p => if p.1 = k then (k, v) else p)
  else m ++ [(k, v)]

/-- Python `m.get(k, dflt)`. -/
def dictGet (m : List (Str × α)) (k : Str) (dflt : α) : α :=
  match m.find? (fun p => decide (p.1 = k)) with
  | some p => p.2
  | none => dflt

/-- `fetch_gmp_map` (app.py lines 224-239) applied to the scraped rows of cell
texts: rows with fewer than four cells are skipped, the rest are keyed by the
lower-cased first cell and map to `(cols[1], cols[3])`. -/
def fetch_gmp_map (rows : List (List Str)) : List (Str × (Str × Str)) :=
  rows.foldl
    (fun m cols =>
      if cols.length < 4 then m
      else dictInsert m (lower (cols.getD 0 [])) (cols.getD 1 [], cols.getD 3 []))
    []

/-- The premium-table join performed in `build_ipo_posts` (app.py lines
246-247): `gmp.get(it["company"].lower(), ("NA", "NA"))`. -/
def gmpJoin (gmp : List (Str × (Str × Str))) (company : Str) : Str × Str :=
  dictGet gmp (lower company) ("NA".toList, "NA".toList)

/-- First admissible scenario item: distinct key, local-market title. -/
def entA : Entry :=
  { id := "a1".toList, link := "http://example.com/a".toList,
    title := "Sensex rises today alpha".toList, summary := [] }

/-- Second admissible scenario item. -/
def entB : Entry :=
  { id := "b2".toList, link := "http://example.com/b".toList,
    title := "Nifty gains today beta".toList, summary := [] }

/-- Third admissible scenario item, left over once the quota of 2 is spent. -/
def entC : Entry :=
  { id := "c3".toList, link := "http://example.com/c".toList,
    title := "BSE update gamma".toList, summary := [] }

/-- The guards an entry must pass to reach the delivery call (app.py lines
292-300): usable uid and title, neither identity already recorded, and an
accepting classification. -/
abbrev ReachesDelivery (cfg : Config) (c : CycleCtx) (e : Entry) : Prop :=
  ¬(entryUid e = [] ∨ e.title = []) ∧
  entryUid e ∉ c.st.posted_ids ∧
  norm_fp e.title ∉ c.st.posted_fps ∧
  is_india_headline cfg.strict e.title e.summary = true

/-- The state of a day on which the trace of published `(uid, fingerprint)`
pairs is `L`: both identity lists mirror the trace (no eviction has occurred
yet) and the counter equals its length, with each identity recorded at most
once. -/
def DayOk (today : Nat) (L : List (Str × Str)) (st : BotState) : Prop :=
  st.date = some today ∧
  st.posted_ids = L.map Prod.fst ∧
  st.posted_fps = L.map Prod.snd ∧
  st.news_count_today = L.length ∧
  (L.map Prod.fst).Nodup ∧ (L.map Prod.snd).Nodup

/-- The combined character-level effect of the three replacements of `esc`
(amp first, so the later two never re-escape an introduced ampersand). -/
def escChar (c : Char) : Str :=
  if c = '&' then "&amp;".toList
  else if c = '<' then "&lt;".toList
  else if c = '>' then "&gt;".toList
  else [c]

/-- Every ampersand in the string starts one of the entities `&amp;`,
`&lt;`, `&gt;`. -/
def ampOk : Str → Bool
  | [] => true
  | c :: r =>
    if c = '&' then
      ("amp;".toList.isPrefixOf r || "lt;".toList.isPrefixOf r
        || "gt;".toList.isPrefixOf r) && ampOk r
    else ampOk r

/-! ### Accounting and quota lemmas for the news cycle -/

theorem processEntry_acc (cfg : Config) (send : Nat → Str → Bool) (c : CycleCtx) (e : Entry) :
    (processEntry cfg send c e).1.st.date = c.st.date ∧
    (processEntry cfg send c e).1.st.news_count_today + c.published.length
      = c.st.news_count_today + (processEntry cfg send c e).1.published.length := by
  simp only [processEntry]
  split
  · exact ⟨rfl, rfl⟩
  · split
    · exact ⟨rfl, rfl⟩
    · split
      · exact ⟨rfl, rfl⟩
      · split
        · refine ⟨rfl, ?_⟩
          simp [recordPublish]
          omega
        · exact ⟨rfl, rfl⟩

theorem processEntry_le (cfg : Config) (send : Nat → Str → Bool) (c : CycleCtx) (e : Entry)
    (h : c.st.news_count_today < cfg.limit) :
    (processEntry cfg send c e).1.st.news_count_today ≤ cfg.limit ∧
    ((processEntry cfg send c e).2 = false →
      (processEntry cfg send c e).1.st.news_count_today < cfg.limit) := by
  simp only [processEntry]
  split
  · exact ⟨h.le, fun _ => h⟩
  · split
    · exact ⟨h.le, fun _ => h⟩
    · split
      · exact ⟨h.le, fun _ => h⟩
      · split
        · refine ⟨?_, ?_⟩
          · simpa [recordPublish] using h
          · intro hf
            simp only [decide_eq_false_iff_not, not_le] at hf
            simpa [recordPublish] using hf
        · exact ⟨h.le, fun _ => h⟩

theorem runEntries_acc (cfg : Config) (send : Nat → Str → Bool) :
    ∀ (es : List Entry) (c : CycleCtx),
    (runEntries cfg send es c).1.st.date = c.st.date ∧
    (runEntries cfg send es c).1.st.news_count_today + c.published.length
      = c.st.news_count_today + (runEntries cfg send es c).1.published.length := by
  intro es
  induction es with
  | nil => exact fun c => ⟨rfl, rfl⟩
  | cons e rest ih =>
    intro c
    simp only [runEntries]
    split
    · exact processEntry_acc cfg send c e
    · obtain ⟨hd, hc⟩ := processEntry_acc cfg send c e
      obtain ⟨hd', hc'⟩ := ih (processEntry cfg send c e).1
      exact ⟨hd'.trans hd, by omega⟩

theorem runEntries_le (cfg : Config) (send : Nat → Str → Bool) :
    ∀ (es : List Entry) (c : CycleCtx),
    c.st.news_count_today < cfg.limit →
    (runEntries cfg send es c).1.st.news_count_today ≤ cfg.limit ∧
    ((runEntries cfg send es c).2 = false →
      (runEntries cfg send es c).1.st.news_count_today < cfg.limit) := by
  intro es
  induction es with
  | nil => exact fun c h => ⟨h.le, fun _ => h⟩
  | cons e rest ih =>
    intro c h
    simp only [runEntries]
    split
    · exact processEntry_le cfg send c e h
    · rename_i hflag
      rw [Bool.not_eq_true] at hflag
      have h2 := (processEntry_le cfg send c e h).2 hflag
      exact ih (processEntry cfg send c e).1 h2

theorem runFeed_acc (cfg : Config) (send : Nat → Str → Bool)
    (f : Option (List Entry)) (c : CycleCtx) :
    (runFeed cfg send f c).1.st.date = c.st.date ∧
    (runFeed cfg send f c).1.st.news_count_today + c.published.length
      = c.st.news_count_today + (runFeed cfg send f c).1.published.length := by
  cases f with
  | none => exact ⟨rfl, rfl⟩
  | some entries => exact runEntries_acc cfg send (entries.take 12) c

theorem runFeed_le (cfg : Config) (send : Nat → Str → Bool)
    (f : Option (List Entry)) (c : CycleCtx) (h : c.st.news_count_today < cfg.limit) :
    (runFeed cfg send f c).1.st.news_count_today ≤ cfg.limit ∧
    ((runFeed cfg send f c).2 = false →
      (runFeed cfg send f c).1.st.news_count_today < cfg.limit) := by
  cases f with
  | none => exact ⟨h.le, fun _ => h⟩
  | some entries => exact runEntries_le cfg send (entries.take 12) c h

theorem runFeeds_acc (cfg : Config) (send : Nat → Str → Bool) :
    ∀ (fs : List (Option (List Entry))) (c : CycleCtx),
    (runFeeds cfg send fs c).st.date = c.st.date ∧
    (runFeeds cfg send fs c).st.news_count_today + c.published.length
      = c.st.news_count_today + (runFeeds cfg send fs c).published.length := by
  intro fs
  induction fs with
  | nil => exact fun c => ⟨rfl, rfl⟩
  | cons f rest ih =>
    intro c
    simp only [runFeeds]
    split
    · exact runFeed_acc cfg send f c
    · obtain ⟨hd, hc⟩ := runFeed_acc cfg send f c
      obtain ⟨hd', hc'⟩ := ih (runFeed cfg send f c).1
      exact ⟨hd'.trans hd, by omega⟩

theorem runFeeds_le (cfg : Config) (send : Nat → Str → Bool) :
    ∀ (fs : List (Option (List Entry))) (c : CycleCtx),
    c.st.news_count_today < cfg.limit →
    (runFeeds cfg send fs c).st.news_count_today ≤ cfg.limit := by
  intro fs
  induction fs with
  | nil => exact fun c h => h.le
  | cons f rest ih =>
    intro c h
    simp only [runFeeds]
    split
    · exact (runFeed_le cfg send f c h).1
    · rename_i hflag
      rw [Bool.not_eq_true] at hflag
      exact ih (runFeed cfg send f c).1 ((runFeed_le cfg send f c h).2 hflag)

theorem load_state_date (stored : Option BotState) (today : Nat) :
    (load_state stored today).date = some today := by
  simp only [load_state]
  split
  · rfl
  · rename_i h
    simpa using h

theorem load_state_stamped (st : BotState) (today : Nat) (h : st.date = some today) :
    load_state (some st) today = st := by
  simp [load_state, h]

theorem load_state_le (stored : Option BotState) (today : Nat) (limit : Nat)
    (h : (stored.getD DEFAULT_STATE).news_count_today ≤ limit ∨
         (stored.getD DEFAULT_STATE).date ≠ some today) :
    (load_state stored today).news_count_today ≤ limit := by
  simp only [load_state]
  split
  · exact Nat.zero_le _
  · rename_i hd
    rcases h with h | h
    · exact h
    · exact absurd h hd

theorem fetch_spec (cfg : Config) (send : Nat → Str → Bool) (today : Nat)
    (feeds : List (Option (List Entry))) (stored : Option BotState) :
    (fetch_and_post_news cfg send today feeds stored).1.date = some today ∧
    (fetch_and_post_news cfg send today feeds stored).1.news_count_today
      = (load_state stored today).news_count_today
        + (fetch_and_post_news cfg send today feeds stored).2.length ∧
    ((load_state stored today).news_count_today ≤ cfg.limit →
      (fetch_and_post_news cfg send today feeds stored).1.news_count_today ≤ cfg.limit) := by
  simp only [fetch_and_post_news]
  split
  · exact ⟨load_state_date stored today, by simp, fun h => h⟩
  · rename_i hlt
    push_neg at hlt
    obtain ⟨hd, hc⟩ := runFeeds_acc cfg send feeds ⟨load_state stored today, 0, []⟩
    refine ⟨hd.trans (load_state_date stored today), by simpa using hc, fun _ => ?_⟩
    exact runFeeds_le cfg send feeds ⟨load_state stored today, 0, []⟩ hlt

theorem runCycles_spec (cfg : Config) (today : Nat) :
    ∀ (cycles : List CycleInput) (stored : Option BotState),
    (load_state stored today).news_count_today ≤ cfg.limit →
    (runCycles cfg today cycles stored).2.length
        + (load_state stored today).news_count_today ≤ cfg.limit ∧
    (∀ s', (runCycles cfg today cycles stored).1 = some s' → s'.date = some today →
      s'.news_count_today ≤ cfg.limit) := by
  intro cycles
  induction cycles with
  | nil =>
    intro stored h
    refine ⟨by simpa [runCycles] using h, ?_⟩
    intro s' hs hd
    simp only [runCycles] at hs
    subst hs
    rw [← load_state_stamped s' today hd]
    exact h
  | cons cy rest ih =>
    intro stored h
    obtain ⟨hdate, hcount, hle⟩ := fetch_spec cfg cy.send today cy.feeds stored
    have hload : load_state (some (fetch_and_post_news cfg cy.send today cy.feeds stored).1) today
        = (fetch_and_post_news cfg cy.send today cy.feeds stored).1 :=
      load_state_stamped _ today hdate
    have hle' := hle h
    obtain ⟨ih1, ih2⟩ := ih (some (fetch_and_post_news cfg cy.send today cy.feeds stored).1)
      (by rw [hload]; exact hle')
    rw [hload] at ih1
    constructor
    · simp only [runCycles, List.length_append]
      omega
    · intro s' hs hd
      exact ih2 s' hs hd

/-! ### Publication-gate conduct lemmas -/

theorem processEntry_dup_skip (cfg : Config) (send : Nat → Str → Bool)
    (c : CycleCtx) (e : Entry)
    (h : entryUid e ∈ c.st.posted_ids ∨ norm_fp e.title ∈ c.st.posted_fps) :
    processEntry cfg send c e = (c, false) := by
  simp only [processEntry]
  split
  · rfl
  · rfl

theorem processEntry_success_eq (cfg : Config) (send : Nat → Str → Bool)
    (c : CycleCtx) (e : Entry) (hr : ReachesDelivery cfg c e)
    (hs : send c.attempts (entryMsg cfg e) = true) :
    processEntry cfg send c e =
      (⟨recordPublish c.st (entryUid e) (norm_fp e.title), c.attempts + 1,
        c.published ++ [(entryUid e, norm_fp e.title)]⟩,
       decide (cfg.limit ≤ c.st.news_count_today + 1)) := by
  obtain ⟨h1, h2, h3, h4⟩ := hr
  simp only [processEntry]
  rw [if_neg h1, if_neg (not_or.mpr ⟨h2, h3⟩), if_neg (by simp [h4]), if_pos hs]
  rfl

theorem processEntry_failure_eq (cfg : Config) (send : Nat → Str → Bool)
    (c : CycleCtx) (e : Entry) (hr : ReachesDelivery cfg c e)
    (hs : send c.attempts (entryMsg cfg e) = false) :
    processEntry cfg send c e = (⟨c.st, c.attempts + 1, c.published⟩, false) := by
  obtain ⟨h1, h2, h3, h4⟩ := hr
  simp only [processEntry]
  rw [if_neg h1, if_neg (not_or.mpr ⟨h2, h3⟩), if_neg (by simp [h4]),
    if_neg (by simp [hs])]

theorem lastN_eq_of_le {α : Type} {l : List α} {n : Nat} (h : l.length ≤ n) :
    lastN n l = l := by
  unfold lastN
  rw [Nat.sub_eq_zero_of_le h, List.drop_zero]

theorem self_mem_lastN_append {α : Type} (l : List α) (a : α) :
    a ∈ lastN 600 (l ++ [a]) := by
  unfold lastN
  have hk : (l ++ [a]).length - 600 ≤ l.length := by
    simp only [List.length_append, List.length_singleton]
    omega
  rw [List.drop_append_of_le_length hk]
  simp

/-! ### Per-day dedup invariant -/

theorem processEntry_dayok (cfg : Config) (send : Nat → Str → Bool)
    (today : Nat) (L0 : List (Str × Str)) (c : CycleCtx) (e : Entry)
    (h600 : cfg.limit ≤ 600)
    (hok : DayOk today (L0 ++ c.published) c.st)
    (hcnt : c.st.news_count_today < cfg.limit) :
    DayOk today (L0 ++ (processEntry cfg send c e).1.published)
      (processEntry cfg send c e).1.st := by
  obtain ⟨hd, hids, hfps, hc, hnd1, hnd2⟩ := hok
  simp only [processEntry]
  split
  · exact ⟨hd, hids, hfps, hc, hnd1, hnd2⟩
  · split
    · exact ⟨hd, hids, hfps, hc, hnd1, hnd2⟩
    · split
      · exact ⟨hd, hids, hfps, hc, hnd1, hnd2⟩
      · split
        · rename_i hguard1 hguard2 hguard3 hsend
          rw [not_or] at hguard2
          obtain ⟨huid, hfp⟩ := hguard2
          have hlen : (L0 ++ c.published).length < 600 := by omega
          have hids' : (recordPublish c.st (entryUid e) (norm_fp e.title)).posted_ids
              = (L0 ++ c.published).map Prod.fst ++ [entryUid e] := by
            simp only [recordPublish]
            rw [hids, lastN_eq_of_le]
            rw [List.length_append, List.length_map, List.length_singleton]
            omega
          have hfps' : (recordPublish c.st (entryUid e) (norm_fp e.title)).posted_fps
              = (L0 ++ c.published).map Prod.snd ++ [norm_fp e.title] := by
            simp only [recordPublish]
            rw [hfps, lastN_eq_of_le]
            rw [List.length_append, List.length_map, List.length_singleton]
            omega
          refine ⟨hd, ?_, ?_, ?_, ?_, ?_⟩
          · rw [← List.append_assoc]
            simpa using hids'
          · rw [← List.append_assoc]
            simpa using hfps'
          · simp only [recordPublish]
            rw [← List.append_assoc, List.length_append, List.length_singleton, hc]
          · rw [← List.append_assoc, List.map_append, List.map_singleton, List.nodup_append]
            refine ⟨hnd1, List.nodup_singleton _, ?_⟩
            intro a ha hb
            simp only [List.mem_singleton] at hb
            subst hb
            exact huid (hids ▸ ha)
          · rw [← List.append_assoc, List.map_append, List.map_singleton, List.nodup_append]
            refine ⟨hnd2, List.nodup_singleton _, ?_⟩
            intro a ha hb
            simp only [List.mem_singleton] at hb
            subst hb
            exact hfp (hfps ▸ ha)
        · exact ⟨hd, hids, hfps, hc, hnd1, hnd2⟩

theorem runEntries_dayok (cfg : Config) (send : Nat → Str → Bool)
    (today : Nat) (L0 : List (Str × Str)) :
    ∀ (es : List Entry) (c : CycleCtx),
    cfg.limit ≤ 600 →
    DayOk today (L0 ++ c.published) c.st →
    c.st.news_count_today < cfg.limit →
    DayOk today (L0 ++ (runEntries cfg send es c).1.published)
      (runEntries cfg send es c).1.st := by
  intro es
  induction es with
  | nil => exact fun c _ hok _ => hok
  | cons e rest ih =>
    intro c h600 hok hcnt
    simp only [runEntries]
    split
    · exact processEntry_dayok cfg send today L0 c e h600 hok hcnt
    · rename_i hflag
      rw [Bool.not_eq_true] at hflag
      exact ih (processEntry cfg send c e).1 h600
        (processEntry_dayok cfg send today L0 c e h600 hok hcnt)
        ((processEntry_le cfg send c e hcnt).2 hflag)

theorem runFeed_dayok (cfg : Config) (send : Nat → Str → Bool)
    (today : Nat) (L0 : List (Str × Str)) (f : Option (List Entry)) (c : CycleCtx)
    (h600 : cfg.limit ≤ 600)
    (hok : DayOk today (L0 ++ c.published) c.st)
    (hcnt : c.st.news_count_today < cfg.limit) :
    DayOk today (L0 ++ (runFeed cfg send f c).1.published) (runFeed cfg send f c).1.st := by
  cases f with
  | none => exact hok
  | some entries => exact runEntries_dayok cfg send today L0 (entries.take 12) c h600 hok hcnt

theorem runFeeds_dayok (cfg : Config) (send : Nat → Str → Bool)
    (today : Nat) (L0 : List (Str × Str)) :
    ∀ (fs : List (Option (List Entry))) (c : CycleCtx),
    cfg.limit ≤ 600 →
    DayOk today (L0 ++ c.published) c.st →
    c.st.news_count_today < cfg.limit →
    DayOk today (L0 ++ (runFeeds cfg send fs c).published) (runFeeds cfg send fs c).st := by
  intro fs
  induction fs with
  | nil => exact fun c _ hok _ => hok
  | cons f rest ih =>
    intro c h600 hok hcnt
    simp only [runFeeds]
    split
    · exact runFeed_dayok cfg send today L0 f c h600 hok hcnt
    · rename_i hflag
      rw [Bool.not_eq_true] at hflag
      exact ih (runFeed cfg send f c).1 h600
        (runFeed_dayok cfg send today L0 f c h600 hok hcnt)
        ((runFeed_le cfg send f c hcnt).2 hflag)

theorem fetch_dayok (cfg : Config) (send : Nat → Str → Bool) (today : Nat)
    (feeds : List (Option (List Entry))) (stored : Option BotState)
    (L0 : List (Str × Str)) (h600 : cfg.limit ≤ 600)
    (hok : DayOk today L0 (load_state stored today)) :
    DayOk today (L0 ++ (fetch_and_post_news cfg send today feeds stored).2)
      (fetch_and_post_news cfg send today feeds stored).1 := by
  simp only [fetch_and_post_news]
  split
  · simpa using hok
  · rename_i hlt
    push_neg at hlt
    have h0 : DayOk today (L0 ++ (⟨load_state stored today, 0, []⟩ : CycleCtx).published)
        (⟨load_state stored today, 0, []⟩ : CycleCtx).st := by simpa using hok
    exact runFeeds_dayok cfg send today L0 feeds ⟨load_state stored today, 0, []⟩ h600 h0 hlt

theorem load_state_fresh (stored : Option BotState) (today : Nat)
    (h : (stored.getD DEFAULT_STATE).date ≠ some today) :
    load_state stored today = job_reset today := by
  simp only [load_state, job_reset]
  rw [if_pos h]

theorem runCycles_dayok (cfg : Config) (today : Nat) :
    ∀ (cycles : List CycleInput) (L0 : List (Str × Str)) (stored : Option BotState),
    cfg.limit ≤ 600 →
    DayOk today L0 (load_state stored today) →
    ((L0 ++ (runCycles cfg today cycles stored).2).map Prod.fst).Nodup ∧
    ((L0 ++ (runCycles cfg today cycles stored).2).map Prod.snd).Nodup := by
  intro cycles
  induction cycles with
  | nil =>
    intro L0 stored _ hok
    simpa [runCycles] using ⟨hok.2.2.2.2.1, hok.2.2.2.2.2⟩
  | cons cy rest ih =>
    intro L0 stored h600 hok
    have hstep := fetch_dayok cfg cy.send today cy.feeds stored L0 h600 hok
    have hload : load_state (some (fetch_and_post_news cfg cy.send today cy.feeds stored).1) today
        = (fetch_and_post_news cfg cy.send today cy.feeds stored).1 :=
      load_state_stamped _ today hstep.1
    have := ih (L0 ++ (fetch_and_post_news cfg cy.send today cy.feeds stored).2)
      (some (fetch_and_post_news cfg cy.send today cy.feeds stored).1) h600
      (by rw [hload]; exact hstep)
    simpa [runCycles, List.append_assoc] using this

/-! ### Claims C1-C3 -/

/-- C1: For every calendar day and every sequence of news cycles run within
that day, the number of news items published never exceeds the configured
daily quota `NEWS_DAILY_LIMIT` (the published trace is no longer than the
quota, and the persisted counter stamped with that day never exceeds it);
in particular, with quota 2, two admissible items with distinct keys and
fingerprints in one cycle are both published and a third admissible item in
the same cycle is skipped for quota. -/
theorem claim_C1_daily_quota :
    (∀ (cfg : Config) (today : Nat) (cycles : List CycleInput) (stored : Option BotState),
      ((stored.getD DEFAULT_STATE).news_count_today ≤ cfg.limit ∨
        (stored.getD DEFAULT_STATE).date ≠ some today) →
      (runCycles cfg today cycles stored).2.length ≤ cfg.limit ∧
      (∀ s', (runCycles cfg today cycles stored).1 = some s' → s'.date = some today →
        s'.news_count_today ≤ cfg.limit))
    ∧ (fetch_and_post_news ⟨true, true, 2⟩ (fun _ _ => true) 0
          [some [entA, entB, entC]] none).2
        = [(entryUid entA, norm_fp entA.title), (entryUid entB, norm_fp entB.title)]
    ∧ (fetch_and_post_news ⟨true, true, 2⟩ (fun _ _ => true) 0
          [some [entA, entB, entC]] none).1.news_count_today = 2 := by
  refine ⟨?_, by decide, by decide⟩
  intro cfg today cycles stored h
  have hl := load_state_le stored today cfg.limit h
  obtain ⟨h1, h2⟩ := runCycles_spec cfg today cycles stored hl
  exact ⟨by omega, h2⟩

/-- Witness for C1: a concrete fresh-day run with quota 2 and three
admissible items publishes at most 2 items. -/
theorem claim_C1_daily_quota_witness :
    (((none : Option BotState).getD DEFAULT_STATE).news_count_today ≤ 2 ∨
      ((none : Option BotState).getD DEFAULT_STATE).date ≠ some 0) ∧
    (runCycles ⟨true, true, 2⟩ 0 [⟨fun _ _ => true, [some [entA, entB, entC]]⟩] none).2.length
      ≤ 2 :=
  ⟨Or.inl (by decide),
   (claim_C1_daily_quota.1 ⟨true, true, 2⟩ 0
      [⟨fun _ _ => true, [some [entA, entB, entC]]⟩] none (Or.inl (by decide))).1⟩

/-- C2: within one calendar day at most one publication per natural key and
at most one per title fingerprint: an item whose uid or fingerprint is
already recorded is skipped with no state change, a published item has both
identities recorded, and over any sequence of cycles of a fresh day (with
the quota not above the eviction cap) the published trace repeats no uid and
no fingerprint. -/
theorem claim_C2_per_day_dedup :
    (∀ (cfg : Config) (send : Nat → Str → Bool) (c : CycleCtx) (e : Entry),
        entryUid e ∈ c.st.posted_ids ∨ norm_fp e.title ∈ c.st.posted_fps →
        processEntry cfg send c e = (c, false))
    ∧ (∀ (cfg : Config) (send : Nat → Str → Bool) (c : CycleCtx) (e : Entry),
        ReachesDelivery cfg c e →
        send c.attempts (entryMsg cfg e) = true →
        entryUid e ∈ (processEntry cfg send c e).1.st.posted_ids ∧
        norm_fp e.title ∈ (processEntry cfg send c e).1.st.posted_fps)
    ∧ (∀ (cfg : Config) (today : Nat) (cycles : List CycleInput) (stored : Option BotState),
        (stored.getD DEFAULT_STATE).date ≠ some today →
        cfg.limit ≤ 600 →
        ((runCycles cfg today cycles stored).2.map Prod.fst).Nodup ∧
        ((runCycles cfg today cycles stored).2.map Prod.snd).Nodup) := by
  refine ⟨processEntry_dup_skip, ?_, ?_⟩
  · intro cfg send c e hr hs
    rw [processEntry_success_eq cfg send c e hr hs]
    exact ⟨self_mem_lastN_append _ _, self_mem_lastN_append _ _⟩
  · intro cfg today cycles stored hfresh h600
    have hok : DayOk today [] (load_state stored today) := by
      rw [load_state_fresh stored today hfresh]
      exact ⟨rfl, rfl, rfl, rfl, List.nodup_nil, List.nodup_nil⟩
    have h := runCycles_dayok cfg today cycles [] stored h600 hok
    simpa using h

/-- Witness for C2: on a concrete fresh-day run the published trace repeats
no uid and no fingerprint, and a concrete already-recorded item is skipped. -/
theorem claim_C2_per_day_dedup_witness :
    (((none : Option BotState).getD DEFAULT_STATE).date ≠ some 0 ∧ (2 : Nat) ≤ 600) ∧
    ((runCycles ⟨true, true, 2⟩ 0 [⟨fun _ _ => true, [some [entA, entB, entC]]⟩] none).2.map
        Prod.fst).Nodup :=
  ⟨⟨by decide, by decide⟩,
   ((claim_C2_per_day_dedup.2.2 ⟨true, true, 2⟩ 0
      [⟨fun _ _ => true, [some [entA, entB, entC]]⟩] none (by decide) (by decide))).1⟩

/-- C3: for an item that reaches delivery, identities are recorded and the
counter incremented exactly when delivery succeeds; a failed delivery leaves
state and trace unchanged, and the same item retried with a later successful
delivery is then published. -/
theorem claim_C3_delivery_gates_commit :
    (∀ (cfg : Config) (send : Nat → Str → Bool) (c : CycleCtx) (e : Entry),
        ReachesDelivery cfg c e →
        send c.attempts (entryMsg cfg e) = true →
        processEntry cfg send c e =
          (⟨recordPublish c.st (entryUid e) (norm_fp e.title), c.attempts + 1,
            c.published ++ [(entryUid e, norm_fp e.title)]⟩,
           decide (cfg.limit ≤ c.st.news_count_today + 1)))
    ∧ (∀ (cfg : Config) (send : Nat → Str → Bool) (c : CycleCtx) (e : Entry),
        ReachesDelivery cfg c e →
        send c.attempts (entryMsg cfg e) = false →
        processEntry cfg send c e = (⟨c.st, c.attempts + 1, c.published⟩, false))
    ∧ (∀ (cfg : Config) (send send₂ : Nat → Str → Bool) (c : CycleCtx) (e : Entry),
        ReachesDelivery cfg c e →
        send c.attempts (entryMsg cfg e) = false →
        send₂ (c.attempts + 1) (entryMsg cfg e) = true →
        processEntry cfg send₂ (processEntry cfg send c e).1 e =
          (⟨recordPublish c.st (entryUid e) (norm_fp e.title), c.attempts + 2,
            c.published ++ [(entryUid e, norm_fp e.title)]⟩,
           decide (cfg.limit ≤ c.st.news_count_today + 1))) := by
  refine ⟨processEntry_success_eq, processEntry_failure_eq, ?_⟩
  intro cfg send send₂ c e hr hs hs₂
  rw [processEntry_failure_eq cfg send c e hr hs]
  exact processEntry_success_eq cfg send₂ ⟨c.st, c.attempts + 1, c.published⟩ e hr hs₂

/-- Witness for C3: a concrete item whose first delivery fails leaves state
unchanged, and its retry on the next cycle publishes it. -/
theorem claim_C3_delivery_gates_commit_witness :
    ReachesDelivery ⟨true, true, 24⟩ ⟨job_reset 0, 0, []⟩ entA ∧
    ((fun _ _ => false) : Nat → Str → Bool) 0 (entryMsg ⟨true, true, 24⟩ entA) = false ∧
    processEntry ⟨true, true, 24⟩ (fun _ _ => false) ⟨job_reset 0, 0, []⟩ entA
      = (⟨job_reset 0, 1, []⟩, false) :=
  ⟨⟨by decide, by decide, by decide, by decide⟩, rfl,
   claim_C3_delivery_gates_commit.2.1 ⟨true, true, 24⟩ (fun _ _ => false)
     ⟨job_reset 0, 0, []⟩ entA ⟨by decide, by decide, by decide, by decide⟩ rfl⟩

/-! ### Claims C7-C9 -/

/-- C7: the daily reset is exact.  When the stored day differs from today,
`load_state` replaces the whole record, stamped with the new date; a news
cycle depends on the stored record only through this reset check (it is
idempotent, so running it first loses nothing); a cycle run on a new day
behaves exactly as if no prior state existed, its loaded identity sets are
empty so every key is admissible again; and `job_reset` installs the same
fresh record. -/
theorem claim_C7_daily_reset :
    (∀ (stored : Option BotState) (today : Nat),
        (stored.getD DEFAULT_STATE).date ≠ some today →
        load_state stored today =
          { date := some today, posted_ids := [], posted_fps := [],
            news_count_today := 0 })
    ∧ (∀ (cfg : Config) (send : Nat → Str → Bool) (today : Nat)
         (feeds : List (Option (List Entry))) (stored : Option BotState),
        fetch_and_post_news cfg send today feeds stored =
          fetch_and_post_news cfg send today feeds (some (load_state stored today)))
    ∧ (∀ (cfg : Config) (send : Nat → Str → Bool) (d' : Nat)
         (feeds : List (Option (List Entry))) (st : BotState),
        st.date ≠ some d' →
        fetch_and_post_news cfg send d' feeds (some st) =
          fetch_and_post_news cfg send d' feeds none)
    ∧ (∀ (stored : Option BotState) (today : Nat),
        (stored.getD DEFAULT_STATE).date ≠ some today →
        (∀ uid : Str, uid ∉ (load_state stored today).posted_ids) ∧
        (∀ fp : Str, fp ∉ (load_state stored today).posted_fps))
    ∧ (∀ today : Nat,
        job_reset today =
          { date := some today, posted_ids := [], posted_fps := [],
            news_count_today := 0 }) := by
  have hres : ∀ (stored : Option BotState) (today : Nat),
      (stored.getD DEFAULT_STATE).date ≠ some today →
      load_state stored today =
        { date := some today, posted_ids := [], posted_fps := [],
          news_count_today := 0 } := by
    intro stored today h
    rw [load_state_fresh stored today h]
    rfl
  have hidem : ∀ (stored : Option BotState) (today : Nat),
      load_state (some (load_state stored today)) today = load_state stored today :=
    fun stored today => load_state_stamped _ today (load_state_date stored today)
  refine ⟨hres, ?_, ?_, ?_, fun _ => rfl⟩
  · intro cfg send today feeds stored
    simp only [fetch_and_post_news, hidem]
  · intro cfg send d' feeds st h
    have h1 : load_state (some st) d' = load_state none d' := by
      rw [hres (some st) d' (by simpa using h)]
      rfl
    simp only [fetch_and_post_news, h1]
  · intro stored today h
    rw [hres stored today h]
    exact ⟨fun uid => List.not_mem_nil uid, fun fp => List.not_mem_nil fp⟩

/-- Witness for C7: a concrete record from day 0 is wholly reset on day 1,
and the cycle on day 1 ignores it. -/
theorem claim_C7_daily_reset_witness :
    ((some ⟨some 0, ["a1".toList], ["x".toList], 5⟩ : Option BotState).getD
        DEFAULT_STATE).date ≠ some 1 ∧
    load_state (some ⟨some 0, ["a1".toList], ["x".toList], 5⟩) 1 =
      { date := some 1, posted_ids := [], posted_fps := [], news_count_today := 0 } :=
  ⟨by decide,
   claim_C7_daily_reset.1 (some ⟨some 0, ["a1".toList], ["x".toList], 5⟩) 1 (by decide)⟩

/-- C8: a fetch/parse failure of one source yields nothing from that source
and nothing else: a cycle with a failed source in any position is identical
— final state and published trace — to the same cycle without that source,
so candidates from the remaining sources are processed and published
unchanged and no per-source failure aborts the cycle. -/
theorem claim_C8_source_isolation :
    ∀ (cfg : Config) (send : Nat → Str → Bool) (today : Nat)
      (feeds₁ feeds₂ : List (Option (List Entry))) (stored : Option BotState),
    fetch_and_post_news cfg send today (feeds₁ ++ none :: feeds₂) stored =
      fetch_and_post_news cfg send today (feeds₁ ++ feeds₂) stored := by
  have hrf : ∀ (cfg : Config) (send : Nat → Str → Bool)
      (feeds₁ feeds₂ : List (Option (List Entry))) (c : CycleCtx),
      runFeeds cfg send (feeds₁ ++ none :: feeds₂) c =
        runFeeds cfg send (feeds₁ ++ feeds₂) c := by
    intro cfg send feeds₁
    induction feeds₁ with
    | nil => intro feeds₂ c; rfl
    | cons f rest ih =>
      intro feeds₂ c
      simp only [List.cons_append, runFeeds]
      split
      · rfl
      · exact ih feeds₂ _
  intro cfg send today feeds₁ feeds₂ stored
  simp only [fetch_and_post_news, hrf]

/-- C9: every recording of an identity caps both identity lists at the 600
most recently recorded entries: the commit keeps exactly the last 600
entries of the appended list (a suffix, so the oldest entries are the ones
evicted), hence both lists stay no longer than 600, and the per-entry step
never grows either list beyond 600. -/
theorem claim_C9_identity_cap :
    (∀ (st : BotState) (uid fp : Str),
        (recordPublish st uid fp).posted_ids = lastN 600 (st.posted_ids ++ [uid]) ∧
        (recordPublish st uid fp).posted_fps = lastN 600 (st.posted_fps ++ [fp]) ∧
        (recordPublish st uid fp).posted_ids.length ≤ 600 ∧
        (recordPublish st uid fp).posted_fps.length ≤ 600 ∧
        (recordPublish st uid fp).posted_ids <:+ st.posted_ids ++ [uid] ∧
        (recordPublish st uid fp).posted_fps <:+ st.posted_fps ++ [fp])
    ∧ (∀ (cfg : Config) (send : Nat → Str → Bool) (c : CycleCtx) (e : Entry),
        (processEntry cfg send c e).1.st.posted_ids.length
          ≤ max c.st.posted_ids.length 600 ∧
        (processEntry cfg send c e).1.st.posted_fps.length
          ≤ max c.st.posted_fps.length 600) := by
  have hlen : ∀ (l : List Str), (lastN 600 l).length ≤ 600 := by
    intro l
    unfold lastN
    rw [List.length_drop]
    omega
  have hsuf : ∀ (l : List Str), lastN 600 l <:+ l := fun l => List.drop_suffix _ _
  refine ⟨?_, ?_⟩
  · intro st uid fp
    exact ⟨rfl, rfl, hlen _, hlen _, hsuf _, hsuf _⟩
  · intro cfg send c e
    simp only [processEntry]
    split
    · exact ⟨Nat.le_max_left _ _, Nat.le_max_left _ _⟩
    · split
      · exact ⟨Nat.le_max_left _ _, Nat.le_max_left _ _⟩
      · split
        · exact ⟨Nat.le_max_left _ _, Nat.le_max_left _ _⟩
        · split
          · exact ⟨Nat.le_trans (hlen _) (Nat.le_max_right _ _),
              Nat.le_trans (hlen _) (Nat.le_max_right _ _)⟩
          · exact ⟨Nat.le_max_left _ _, Nat.le_max_left _ _⟩

/-! ### Escaping: structure of esc output -/

theorem repl_append (f : Char → Str) (a b : Str) :
    repl f (a ++ b) = repl f a ++ repl f b := by
  induction a with
  | nil => rfl
  | cons c t ih => simp [repl, ih]

theorem repl_congr {f f' : Char → Str} (h : ∀ c, f c = f' c) :
    ∀ s, repl f s = repl f' s := by
  intro s
  induction s with
  | nil => rfl
  | cons c t ih => simp [repl, h, ih]

theorem repl_reverse (f : Char → Str) :
    ∀ s, (repl f s).reverse = repl (fun c => (f c).reverse) s.reverse := by
  intro s
  induction s with
  | nil => rfl
  | cons c t ih => simp [repl, repl_append, ih]

theorem repl_esc_compose :
    ∀ s, repl escGt (repl escLt (repl escAmp s)) = repl escChar s := by
  intro s
  induction s with
  | nil => rfl
  | cons c t ih =>
    by_cases h1 : c = '&'
    · subst h1
      simp [repl, repl_append, escAmp, escLt, escGt, escChar, ih]
    · by_cases h2 : c = '<'
      · subst h2
        simp [repl, repl_append, escAmp, escLt, escGt, escChar, ih]
      · by_cases h3 : c = '>'
        · subst h3
          simp [repl, repl_append, escAmp, escLt, escGt, escChar, ih]
        · simp [repl, escAmp, escLt, escGt, escChar, h1, h2, h3, ih]

theorem dropWhile_repl (f : Char → Str)
    (h1 : ∀ c, isPySpace c = true → f c = [c])
    (h2 : ∀ c, isPySpace c = false → ∃ d t, f c = d :: t ∧ isPySpace d = false) :
    ∀ s, (repl f s).dropWhile isPySpace = repl f (s.dropWhile isPySpace) := by
  intro s
  induction s with
  | nil => rfl
  | cons c t ih =>
    by_cases hc : isPySpace c = true
    · rw [repl, h1 c hc]
      simpa [List.dropWhile_cons, hc] using ih
    · rw [Bool.not_eq_true] at hc
      obtain ⟨d, t', hf, hd⟩ := h2 c hc
      rw [repl, hf]
      simp [List.dropWhile_cons, hc, hd, repl, hf]

theorem escChar_ws (c : Char) (h : isPySpace c = true) : escChar c = [c] := by
  have h1 : c ≠ '&' := by rintro rfl; exact absurd h (by decide)
  have h2 : c ≠ '<' := by rintro rfl; exact absurd h (by decide)
  have h3 : c ≠ '>' := by rintro rfl; exact absurd h (by decide)
  simp [escChar, h1, h2, h3]

theorem escChar_head (c : Char) (h : isPySpace c = false) :
    ∃ d t, escChar c = d :: t ∧ isPySpace d = false := by
  by_cases h1 : c = '&'
  · exact ⟨'&', "amp;".toList, by simp [escChar, h1], by decide⟩
  · by_cases h2 : c = '<'
    · exact ⟨'&', "lt;".toList, by simp [escChar, h1, h2], by decide⟩
    · by_cases h3 : c = '>'
      · exact ⟨'&', "gt;".toList, by simp [escChar, h1, h2, h3], by decide⟩
      · exact ⟨c, [], by simp [escChar, h1, h2, h3], h⟩

theorem escCharR_ws (c : Char) (h : isPySpace c = true) : (escChar c).reverse = [c] := by
  rw [escChar_ws c h]
  rfl

theorem escCharR_head (c : Char) (h : isPySpace c = false) :
    ∃ d t, (escChar c).reverse = d :: t ∧ isPySpace d = false := by
  by_cases h1 : c = '&'
  · exact ⟨';', ['p', 'm', 'a', '&'], by simp [escChar, h1], by decide⟩
  · by_cases h2 : c = '<'
    · exact ⟨';', ['t', 'l', '&'], by simp [escChar, h1, h2], by decide⟩
    · by_cases h3 : c = '>'
      · exact ⟨';', ['t', 'g', '&'], by simp [escChar, h1, h2, h3], by decide⟩
      · exact ⟨c, [], by simp [escChar, h1, h2, h3], h⟩

theorem rstrip_repl (u : Str) :
    rstrip (repl escChar u) = repl escChar (rstrip u) := by
  unfold rstrip
  rw [repl_reverse escChar u,
    dropWhile_repl (fun c => (escChar c).reverse) escCharR_ws escCharR_head,
    repl_reverse (fun c => (escChar c).reverse),
    repl_congr (fun c => List.reverse_reverse (escChar c))]

theorem esc_eq_repl (o : Option Str) :
    esc o = repl escChar (pyStrip (o.getD [])) := by
  unfold esc pyStrip lstrip
  rw [repl_esc_compose, dropWhile_repl escChar escChar_ws escChar_head, rstrip_repl]

theorem mem_repl {a : Char} (f : Char → Str) :
    ∀ {s : Str}, a ∈ repl f s → ∃ c ∈ s, a ∈ f c := by
  intro s
  induction s with
  | nil => intro h; exact absurd h (List.not_mem_nil a)
  | cons c t ih =>
    intro h
    rw [repl, List.mem_append] at h
    rcases h with h | h
    · exact ⟨c, List.mem_cons_self c t, h⟩
    · obtain ⟨c', hc', ha⟩ := ih h
      exact ⟨c', List.mem_cons_of_mem c hc', ha⟩

theorem lt_not_mem_escChar (c : Char) : '<' ∉ escChar c := by
  by_cases h1 : c = '&'
  · subst h1; decide
  · by_cases h2 : c = '<'
    · subst h2; decide
    · by_cases h3 : c = '>'
      · subst h3; decide
      · intro h
        simp [escChar, h1, h2, h3] at h
        exact h2 h.symm

theorem gt_not_mem_escChar (c : Char) : '>' ∉ escChar c := by
  by_cases h1 : c = '&'
  · subst h1; decide
  · by_cases h2 : c = '<'
    · subst h2; decide
    · by_cases h3 : c = '>'
      · subst h3; decide
      · intro h
        simp [escChar, h1, h2, h3] at h
        exact h3 h.symm

theorem ampOk_cons_ne {c : Char} (h : c ≠ '&') (r : Str) : ampOk (c :: r) = ampOk r := by
  simp [ampOk, h]

theorem ampOk_amp (r : Str) : ampOk ('&' :: 'a' :: 'm' :: 'p' :: ';' :: r) = ampOk r := by
  rw [show ampOk ('&' :: 'a' :: 'm' :: 'p' :: ';' :: r)
      = (("amp;".toList.isPrefixOf ('a' :: 'm' :: 'p' :: ';' :: r)
          || "lt;".toList.isPrefixOf ('a' :: 'm' :: 'p' :: ';' :: r)
          || "gt;".toList.isPrefixOf ('a' :: 'm' :: 'p' :: ';' :: r))
        && ampOk ('a' :: 'm' :: 'p' :: ';' :: r)) from by simp [ampOk]]
  rw [ampOk_cons_ne (by decide), ampOk_cons_ne (by decide), ampOk_cons_ne (by decide),
    ampOk_cons_ne (by decide)]
  simp [List.isPrefixOf]

theorem ampOk_lt (r : Str) : ampOk ('&' :: 'l' :: 't' :: ';' :: r) = ampOk r := by
  rw [show ampOk ('&' :: 'l' :: 't' :: ';' :: r)
      = (("amp;".toList.isPrefixOf ('l' :: 't' :: ';' :: r)
          || "lt;".toList.isPrefixOf ('l' :: 't' :: ';' :: r)
          || "gt;".toList.isPrefixOf ('l' :: 't' :: ';' :: r))
        && ampOk ('l' :: 't' :: ';' :: r)) from by simp [ampOk]]
  rw [ampOk_cons_ne (by decide), ampOk_cons_ne (by decide), ampOk_cons_ne (by decide)]
  simp [List.isPrefixOf]

theorem ampOk_gt (r : Str) : ampOk ('&' :: 'g' :: 't' :: ';' :: r) = ampOk r := by
  rw [show ampOk ('&' :: 'g' :: 't' :: ';' :: r)
      = (("amp;".toList.isPrefixOf ('g' :: 't' :: ';' :: r)
          || "lt;".toList.isPrefixOf ('g' :: 't' :: ';' :: r)
          || "gt;".toList.isPrefixOf ('g' :: 't' :: ';' :: r))
        && ampOk ('g' :: 't' :: ';' :: r)) from by simp [ampOk]]
  rw [ampOk_cons_ne (by decide), ampOk_cons_ne (by decide), ampOk_cons_ne (by decide)]
  simp [List.isPrefixOf]

theorem ampOk_repl : ∀ s, ampOk (repl escChar s) = true := by
  intro s
  induction s with
  | nil => rfl
  | cons c t ih =>
    rw [repl]
    by_cases h1 : c = '&'
    · subst h1
      rw [show escChar '&' = "&amp;".toList from rfl]
      rw [show ("&amp;".toList : Str) ++ repl escChar t
          = '&' :: 'a' :: 'm' :: 'p' :: ';' :: repl escChar t from rfl]
      rw [ampOk_amp]
      exact ih
    · by_cases h2 : c = '<'
      · subst h2
        rw [show escChar '<' = "&lt;".toList from rfl]
        rw [show ("&lt;".toList : Str) ++ repl escChar t
            = '&' :: 'l' :: 't' :: ';' :: repl escChar t from rfl]
        rw [ampOk_lt]
        exact ih
      · by_cases h3 : c = '>'
        · subst h3
          rw [show escChar '>' = "&gt;".toList from rfl]
          rw [show ("&gt;".toList : Str) ++ repl escChar t
              = '&' :: 'g' :: 't' :: ';' :: repl escChar t from rfl]
          rw [ampOk_gt]
          exact ih
        · rw [show escChar c = [c] from by simp [escChar, h1, h2, h3]]
          rw [List.singleton_append, ampOk_cons_ne h1]
          exact ih

/-- C10: for every input (a missing value treated as the empty string),
`esc` output contains no `<` and no `>`, and every ampersand in it starts
one of the entities `&amp;`, `&lt;`, `&gt;` (ampersands being escaped first,
no introduced entity is re-escaped); and the outbound news message
interpolates exactly the `esc` image of each externally sourced field
(title, summary, impact hint, link, source label). -/
theorem claim_C10_esc_safety :
    (∀ o : Option Str, '<' ∉ esc o) ∧
    (∀ o : Option Str, '>' ∉ esc o) ∧
    (∀ o : Option Str, ampOk (esc o) = true) ∧
    esc none = esc (some []) ∧
    (∀ (inc : Bool) (t s i l : Str),
      newsParts inc t s i l =
        newsPartsTpl inc s i l (esc (some t)) (esc (some s)) (esc (some i))
          (esc (some l)) (esc (some (srcOf l)))) := by
  refine ⟨?_, ?_, ?_, rfl, ?_⟩
  · intro o h
    rw [esc_eq_repl] at h
    obtain ⟨c, _, hc⟩ := mem_repl escChar h
    exact lt_not_mem_escChar c hc
  · intro o h
    rw [esc_eq_repl] at h
    obtain ⟨c, _, hc⟩ := mem_repl escChar h
    exact gt_not_mem_escChar c hc
  · intro o
    rw [esc_eq_repl]
    exact ampOk_repl _
  · intro inc t s i l
    rfl

/-! ### Claims C4-C6 -/

/-- C4: any (title, body) pair whose case-folded concatenation contains a
global-impact lexicon term is accepted by the classifier, regardless of the
strict-locality toggle and of which local or foreign terms appear. -/
theorem claim_C4_global_impact_precedence :
    ∀ (strict : Bool) (title summary : Str),
      anyKeyIn (lower title ++ lower summary) GLOBAL_WITH_IMPACT = true →
      is_india_headline strict title summary = true := by
  intro strict title summary h
  simp [is_india_headline, h]

/-- Witness for C4: "Fed holds rates steady" with strict locality on, no
local term, a foreign-policy term present, is accepted. -/
theorem claim_C4_global_impact_precedence_witness :
    anyKeyIn (lower "Fed holds rates steady".toList ++ lower ([] : Str))
      GLOBAL_WITH_IMPACT = true ∧
    is_india_headline true "Fed holds rates steady".toList [] = true :=
  ⟨by decide,
   claim_C4_global_impact_precedence true "Fed holds rates steady".toList [] (by decide)⟩

/-- C5 counterexample: a title carrying both a local-market term ("nifty")
and a foreign-market term ("japan"), with no global-impact term, is
rejected by the code, where the claim says such a title is still
accepted. -/
theorem claim_C5_counterexample :
    anyKeyIn (lower "Nifty slips as Japan stocks tumble".toList ++ lower ([] : Str))
      GLOBAL_WITH_IMPACT = false ∧
    anyKeyIn (lower "Nifty slips as Japan stocks tumble".toList) MUST_INCLUDE = true ∧
    anyKeyIn (lower "Nifty slips as Japan stocks tumble".toList) BLOCK_FOREIGN = true ∧
    is_india_headline true "Nifty slips as Japan stocks tumble".toList [] = false :=
  ⟨by decide, by decide, by decide, by decide⟩

/-- C5 (amended): with no global-impact term present, a title containing a
local-market term is accepted exactly when it contains no foreign-market
term; the foreign-term check is unconditional, so a title with both a local
and a foreign term is rejected. -/
theorem claim_C5_local_accept_amended :
    ∀ (strict : Bool) (title summary : Str),
      anyKeyIn (lower title ++ lower summary) GLOBAL_WITH_IMPACT = false →
      anyKeyIn (lower title) MUST_INCLUDE = true →
      (anyKeyIn (lower title) BLOCK_FOREIGN = false →
        is_india_headline strict title summary = true) ∧
      (anyKeyIn (lower title) BLOCK_FOREIGN = true →
        is_india_headline strict title summary = false) := by
  intro strict title summary hg hm
  constructor
  · intro hb
    simp [is_india_headline, hg, hm, hb]
  · intro hb
    simp [is_india_headline, hg, hm, hb]

/-- Witness for the amended C5: a local-term title with no foreign term is
accepted; the same local term with a foreign term added is rejected. -/
theorem claim_C5_local_accept_amended_witness :
    (anyKeyIn (lower "Sensex rises today alpha".toList ++ lower ([] : Str))
        GLOBAL_WITH_IMPACT = false ∧
      anyKeyIn (lower "Sensex rises today alpha".toList) MUST_INCLUDE = true ∧
      anyKeyIn (lower "Sensex rises today alpha".toList) BLOCK_FOREIGN = false) ∧
    is_india_headline true "Sensex rises today alpha".toList [] = true :=
  ⟨⟨by decide, by decide, by decide⟩,
   (claim_C5_local_accept_amended true "Sensex rises today alpha".toList []
      (by decide) (by decide)).1 (by decide)⟩

/-- C6 counterexample: the premium key "acme industries" (lower-cased) is a
substring of the lower-cased listing "Acme Industries Ltd", the exact
condition under which the claim's containment fallback must return the
premium row, yet the code joins to absent ("NA", "NA"), which differs from
that row's value. -/
theorem claim_C6_counterexample :
    isSubStr (lower "ACME Industries".toList) (lower "Acme Industries Ltd".toList) = true ∧
    gmpJoin
        (fetch_gmp_map [["ACME Industries".toList, "₹25".toList,
          "open".toList, "₹125".toList]])
        "Acme Industries Ltd".toList
      = ("NA".toList, "NA".toList) ∧
    (("NA".toList, "NA".toList) : Str × Str) ≠ ("₹25".toList, "₹125".toList) :=
  ⟨by decide, by decide, by decide⟩

/-- C6 (amended): the join is exact-match only on the case-folded company
name.  An exact hit returns its premium pair; any miss — including names
related only by substring containment — joins to absent ("NA", "NA"); in
particular both "Acme Industries Ltd" (containment-related key only) and
"Zenith Co" (no key at all) join to absent. -/
theorem claim_C6_join_amended :
    (∀ (gmp : List (Str × (Str × Str))) (company : Str),
        (∀ p ∈ gmp, p.1 ≠ lower company) →
        gmpJoin gmp company = ("NA".toList, "NA".toList))
    ∧ (∀ (gmp : List (Str × (Str × Str))) (company : Str) (p : Str × (Str × Str)),
        gmp.find? (fun q => decide (q.1 = lower company)) = some p →
        gmpJoin gmp company = p.2)
    ∧ gmpJoin
        (fetch_gmp_map [["ACME Industries".toList, "₹25".toList,
          "open".toList, "₹125".toList]])
        "Zenith Co".toList
      = ("NA".toList, "NA".toList) := by
  refine ⟨?_, ?_, by decide⟩
  · intro gmp company h
    unfold gmpJoin dictGet
    rw [List.find?_eq_none.mpr]
    intro p hp
    simpa using h p hp
  · intro gmp company p h
    unfold gmpJoin dictGet
    rw [h]

/-- Witness for the amended C6: a concrete table with no exactly matching key
joins to absent. -/
theorem claim_C6_join_amended_witness :
    (∀ p ∈ [(("acme industries".toList : Str), (("₹25".toList : Str), ("₹125".toList : Str)))],
        p.1 ≠ lower "Zenith Co".toList) ∧
    gmpJoin [(("acme industries".toList : Str), (("₹25".toList : Str), ("₹125".toList : Str)))]
        "Zenith Co".toList
      = ("NA".toList, "NA".toList) :=
  ⟨by decide,
   (claim_C6_join_amended).1
     [(("acme industries".toList : Str), (("₹25".toList : Str), ("₹125".toList : Str)))]
     "Zenith Co".toList (by decide)⟩
